import Mathlib

/-!
Verification of the glide-pdf-service shot-list layout pipeline.

The JavaScript source contains several near-duplicate request pipelines:
the flow-layout engine of src/unnamed/part_001 (identical to the second
variant in src/server.js), the y-cursor/column engine of the third variant
in src/server.js, and the fixed 2x4 grid engine of src/unnamed/part_000.
This file gives a shallow embedding of the pure parts of those pipelines:
input normalisation (splitList, splitField, minLength, shot construction),
scene grouping (both groupByScene implementations), and the layout engines
as emitters of draw-instruction traces.  All page dimensions are measured
in centipoints (hundredths of a PDF point) so that the A4 page
(595.28 x 841.89 points, 40 point margins) is exact natural arithmetic.
-/

/-- Characters removed by the JavaScript String.prototype.trim on the
inputs this service receives (ASCII whitespace). -/
def isWs (c : Char) : Bool :=
  c = ' ' || c = '\t' || c = '\n' || c = '\r'

/-- Shallow embedding of the JavaScript s.trim() used by the normaliser:
drop whitespace from the front, then from the back. -/
def jsTrim (s : String) : String :=
  String.mk (((s.data.dropWhile isWs).reverse.dropWhile isWs).reverse)

/-- JavaScript s1 or-else s2 on strings: the empty string is falsy, so
(s1 or s2) is s2 when s1 is empty and s1 otherwise. -/
def jsOr (s d : String) : String :=
  if s = "" then d else s

/-- One shot record, as built by the /generate handler of
src/server.js (second and third variants) and src/unnamed/part_001.
src/unnamed/part_000 names the corresponding fields url/size/desc/scene. -/
structure Shot where
  image : String
  scene : String
  size : String
  description : String
  name : String
deriving DecidableEq

/-- A contiguous run of shots sharing one scene label, as produced by
groupByScene.  src/unnamed/part_000 calls the label field scene. -/
structure SceneGroup where
  sceneName : String
  shots : List Shot
deriving DecidableEq

/-- A per-shot request field as the handler receives it: absent
(undefined), a single separator-joined string, or a native array. -/
inductive ReqValue where
  | absent
  | str (s : String)
  | arr (l : List String)
deriving DecidableEq

/-- Fuel-driven embedding of JavaScript String.prototype.split with a
non-empty string separator: scan left to right, cutting at each
non-overlapping occurrence of the separator.  The fuel is the length of
the input, which always suffices because the matched branch consumes at
least one character of a non-empty separator. -/
def splitAux (sep : List Char) : Nat → List Char → List Char → List (List Char)
  | _, [], acc => [acc.reverse]
  | 0, l, acc => [acc.reverse ++ l]
  | Nat.succ fuel, c :: rest, acc =>
      if sep.isPrefixOf (c :: rest) then
        acc.reverse :: splitAux sep fuel ((c :: rest).drop sep.length) []
      else
        splitAux sep fuel rest (c :: acc)

/-- JavaScript s.split(sep) for the non-empty separator used here. -/
def jsSplit (s sep : String) : List String :=
  (splitAux sep.data s.data.length s.data []).map String.mk

/-- splitList from src/server.js lines 225-232 (and src/unnamed/part_001
lines 38-45): a falsy value gives the empty list, a native array is
passed through unchanged, and a string is split on the triple-pipe
separator, trimmed, and filtered of empty strings. -/
def splitList : ReqValue → List String
  | ReqValue.absent => []
  | ReqValue.str s =>
      if s = "" then []
      else ((jsSplit s "|||").map jsTrim).filter (fun x => x ≠ "")
  | ReqValue.arr l => l

/-- splitField from src/unnamed/part_000 lines 38-44: like splitList but
WITHOUT the empty-string filter. -/
def splitField : ReqValue → List String
  | ReqValue.absent => []
  | ReqValue.str s =>
      if s = "" then []
      else (jsSplit s "|||").map jsTrim
  | ReqValue.arr l => l

/-- minLength from src/server.js lines 234-239: reduce over the list of
arrays starting from Infinity, taking the minimum of the lengths.  The
JavaScript Infinity start value is modelled by the none case of an
Option-valued accumulator. -/
def minLength (arrays : List (List String)) : Option Nat :=
  arrays.foldl
    (fun m arr =>
      match m with
      | none => some arr.length
      | some v => some (Nat.min v arr.length))
    none

/-- The shot-construction loop of the /generate handler,
src/server.js lines 299-308: index i runs below usableCount, missing or
empty entries default to the empty string, and a blank name is backfilled
with a generated Shot label. -/
def buildShots (usableCount : Nat)
    (images scenes sizes descriptions names : List String) : List Shot :=
  (List.range usableCount).map (fun i =>
    { image := jsOr (images.getD i "") ""
      scene := jsOr (scenes.getD i "") ""
      size := jsOr (sizes.getD i "") ""
      description := jsOr (descriptions.getD i "") ""
      name := jsOr (jsTrim (jsOr (names.getD i "") ""))
                   ("Shot " ++ toString (i + 1)) })

/-- groupByScene of src/server.js lines 242-255 and src/unnamed/part_001
lines 55-68: the outer while loop fixes the current scene label
(shot.scene defaulted to the empty string), the inner while loop collects
the contiguous run with that label, and the walk resumes after the run.
The loop is embedded with a fuel argument equal to the number of shots
still to be consumed, which always suffices because each outer iteration
consumes at least the first shot of its run. -/
def groupBySceneAux : Nat → List Shot → List SceneGroup
  | 0, _ => []
  | _, [] => []
  | Nat.succ fuel, s :: rest =>
      let name := jsOr s.scene ""
      { sceneName := name
        shots := s :: rest.takeWhile (fun t => jsOr t.scene "" == name) } ::
        groupBySceneAux fuel (rest.dropWhile (fun t => jsOr t.scene "" == name))

/-- groupByScene, entry point (fuel instantiated with the list length). -/
def groupByScene (shots : List Shot) : List SceneGroup :=
  groupBySceneAux shots.length shots

/-- The loop body state of the groupByScene variant of
src/unnamed/part_000 lines 46-68, after the first shot has seeded
currentScene and currentGroup: cur is currentScene, acc the (non-empty)
currentGroup; a shot with a different label flushes the group, a shot
with the same label is appended; the final flush closes the last group. -/
def groupFoldAux : String → List Shot → List Shot → List SceneGroup
  | cur, acc, [] => [{ sceneName := cur, shots := acc }]
  | cur, acc, shot :: rest =>
      let scene := jsOr shot.scene ""
      if scene = cur then
        groupFoldAux cur (acc ++ [shot]) rest
      else
        { sceneName := cur, shots := acc } :: groupFoldAux scene [shot] rest

/-- groupByScene of src/unnamed/part_000: the first shot seeds the state
(currentScene starts as null, so the first comparison always starts a new
group), then groupFoldAux processes the rest. -/
def groupBySceneGrid : List Shot → List SceneGroup
  | [] => []
  | shot :: rest => groupFoldAux (jsOr shot.scene "") [shot] rest

/-- Outcome of the /generate handler, up to the validation decision:
either the 400 response carrying the four received field lengths, or a
generated document rendered from the grouped shots. -/
inductive GenerateOutcome where
  | validationError (images scenes sizes descriptions : Nat)
  | document (groups : List SceneGroup)
deriving DecidableEq

/-- The /generate handler of src/server.js lines 260-312 (and
src/unnamed/part_001 lines 73-125) up to scene grouping: split the five
raw fields, compute usableCount as minLength of the four required lists,
reject with the per-field lengths when it is not finite or zero, and
otherwise build the shots and group them.  The none branch mirrors the
Number.isFinite guard (reachable in JavaScript only for an empty array
argument list, kept for faithfulness). -/
def handleGenerate (imagesRaw scenesRaw sizesRaw descRaw namesRaw : ReqValue) :
    GenerateOutcome :=
  let images := splitList imagesRaw
  let scenes := splitList scenesRaw
  let sizes := splitList sizesRaw
  let descriptions := splitList descRaw
  let names := splitList namesRaw
  match minLength [images, scenes, sizes, descriptions] with
  | none =>
      GenerateOutcome.validationError
        images.length scenes.length sizes.length descriptions.length
  | some usableCount =>
      if usableCount = 0 then
        GenerateOutcome.validationError
          images.length scenes.length sizes.length descriptions.length
      else
        GenerateOutcome.document
          (groupByScene (buildShots usableCount images scenes sizes descriptions names))

/-- Result of attempting to retrieve one image: ok (the response succeeded
and the bytes decoded), notOk (a non-success HTTP response), or err (a
thrown network or decode error, caught by the renderer). -/
inductive FetchOutcome where
  | ok
  | notOk
  | err
deriving DecidableEq

/-- The page geometry read from doc.page: width, height and the uniform
margin, in centipoints.  The PDF is created with size A4 and margin 40. -/
structure PageGeom where
  width : Nat
  height : Nat
  margin : Nat
deriving DecidableEq

/-- The A4 page with 40 point margins used by every variant. -/
def A4 : PageGeom :=
  { width := 59528, height := 84189, margin := 4000 }

namespace Flow

/-- Layout constants of src/unnamed/part_001 lines 147-150 (centipoints). -/
def COLS : Nat := 2

def IMAGE_HEIGHT : Nat := 13500

def TEXT_BLOCK_HEIGHT : Nat := 7000

def ROW_SPACING : Nat := 1200

/-- rowHeight of computeLayout: image height + text block + spacing. -/
def ROW_HEIGHT : Nat := IMAGE_HEIGHT + TEXT_BLOCK_HEIGHT + ROW_SPACING

/-- Derived page layout of computeLayout, src/unnamed/part_001
lines 152-163.  Every page has the same A4 geometry, so the layout
computed on each new page is this same value. -/
structure Layout where
  rowHeight : Nat
  maxRows : Nat
  usableWidth : Nat
deriving DecidableEq

/-- computeLayout: maxRows is the floor of usable height over row
height; usableWidth the width between the margins. -/
def computeLayout (geom : PageGeom) : Layout :=
  { rowHeight := ROW_HEIGHT
    maxRows := (geom.height - geom.margin - geom.margin) / ROW_HEIGHT
    usableWidth := geom.width - geom.margin - geom.margin }

/-- cellWidth computed inside drawShotRow: usableWidth / COLS. -/
def cellWidth (L : Layout) : Nat :=
  L.usableWidth / COLS

/-- The page cursor of the flow engine: current page number (1-based,
counting addPage calls) and the row index on that page. -/
structure FState where
  page : Nat
  rowIndex : Nat
deriving DecidableEq

/-- startNewPage, src/unnamed/part_001 lines 165-172: allocate a page and
reset the row index (the layout recomputed there equals computeLayout of
the same A4 geometry). -/
def startNewPage (st : FState) : FState :=
  { page := st.page + 1, rowIndex := 0 }

/-- ensureRows, src/unnamed/part_001 lines 174-179: if the needed rows do
not fit below the current row index, move to a fresh page.  Note the
check is not re-examined on the fresh page. -/
def ensureRows (L : Layout) (st : FState) (needed : Nat) : FState :=
  if L.maxRows < st.rowIndex + needed then startNewPage st else st

/-- One emitted draw instruction of the flow engine.  Each instruction is
tagged with the index of the SceneGroup the rendering loop was processing
when it was emitted; header records the page and row band of a
drawHeaderRow call, cell the page, row and column of one shot of a
drawShotRow call together with whether its image draw happened
(url non-empty, fetch and decode succeeded). -/
inductive FlowInstr where
  | header (group page row : Nat) (scene : String)
  | cell (group page row col : Nat) (shot : Shot) (imageDrawn : Bool)
deriving DecidableEq

/-- The cell loop of drawShotRow, src/unnamed/part_001 lines 217-271:
for (col = 0; col < COLS and i < sceneShots.length; col++, i++) emit the
image draw (guarded by a non-empty url and a successful fetch; failures
are caught and only skip the image) followed by the unconditional
size/name/description caption draws, here recorded as one cell
instruction carrying the shot.  Returns the instructions and the next
shot index. -/
def shotCells (fetch : String → FetchOutcome) (g page row : Nat)
    (sceneShots : List Shot) : Nat → Nat → Nat → List FlowInstr × Nat
  | 0, _, i => ([], i)
  | Nat.succ colsLeft, col, i =>
      match sceneShots[i]? with
      | none => ([], i)
      | some shot =>
          let drawn := shot.image != "" && fetch shot.image == FetchOutcome.ok
          let next := shotCells fetch g page row sceneShots colsLeft (col + 1) (i + 1)
          (FlowInstr.cell g page row col shot drawn :: next.1, next.2)

/-- drawShotRow, src/unnamed/part_001 lines 206-275: emit one row of up
to COLS cells starting at startIndex, consume one row of the page, and
return the next shot index. -/
def drawShotRow (fetch : String → FetchOutcome) (g : Nat)
    (sceneShots : List Shot) (startIndex : Nat) (st : FState) :
    List FlowInstr × Nat × FState :=
  let r := shotCells fetch g st.page st.rowIndex sceneShots COLS 0 startIndex
  (r.1, r.2, { st with rowIndex := st.rowIndex + 1 })

/-- The per-group while loop of src/unnamed/part_001 lines 290-296:
while shots remain, ensure one row fits (without repeating the header on
a page break) and draw a row.  Fuel-driven; the fuel is the number of
shots not yet consumed, which suffices because drawShotRow advances the
index by at least one. -/
def renderRowsAux (fetch : String → FetchOutcome) (L : Layout) (g : Nat)
    (sceneShots : List Shot) : Nat → Nat → FState → List FlowInstr × FState
  | 0, _, st => ([], st)
  | Nat.succ fuel, shotIndex, st =>
      if shotIndex < sceneShots.length then
        let st1 := ensureRows L st 1
        let r := drawShotRow fetch g sceneShots shotIndex st1
        let rest := renderRowsAux fetch L g sceneShots fuel r.2.1 r.2.2
        (r.1 ++ rest.1, rest.2)
      else ([], st)

/-- One iteration of the group loop, src/unnamed/part_001 lines 280-297:
ensure room for the header row plus one shot row (the anti-orphan rule),
draw the header row (consuming one row), then the group's shot rows. -/
def renderGroup (fetch : String → FetchOutcome) (L : Layout) (g : Nat)
    (grp : SceneGroup) (st : FState) : List FlowInstr × FState :=
  let st1 := ensureRows L st 2
  let st2 := { st1 with rowIndex := st1.rowIndex + 1 }
  let r := renderRowsAux fetch L g grp.shots grp.shots.length 0 st2
  (FlowInstr.header g st1.page st1.rowIndex grp.sceneName :: r.1, r.2)

/-- The group loop over all scene groups, numbering groups from g. -/
def renderGroups (fetch : String → FetchOutcome) (L : Layout) :
    Nat → List SceneGroup → FState → List FlowInstr × FState
  | _, [], st => ([], st)
  | g, grp :: more, st =>
      let r1 := renderGroup fetch L g grp st
      let r2 := renderGroups fetch L (g + 1) more r1.2
      (r1.1 ++ r2.1, r2.2)

/-- The whole flow rendering of src/unnamed/part_001 lines 277-297: start
the first page and render every scene group in order. -/
def flowTrace (fetch : String → FetchOutcome) (geom : PageGeom)
    (shots : List Shot) : List FlowInstr :=
  (renderGroups fetch (computeLayout geom) 0 (groupByScene shots)
    { page := 1, rowIndex := 0 }).1

/-- The group tag an instruction carries. -/
def instrGroup : FlowInstr → Nat
  | FlowInstr.header g _ _ _ => g
  | FlowInstr.cell g _ _ _ _ _ => g

/-- The page an instruction was emitted on. -/
def instrPage : FlowInstr → Nat
  | FlowInstr.header _ p _ _ => p
  | FlowInstr.cell _ p _ _ _ _ => p

/-- Recognise the header instruction of group g. -/
def isHeaderFor (g : Nat) : FlowInstr → Bool
  | FlowInstr.header g2 _ _ _ => g2 == g
  | _ => false

/-- Recognise a cell instruction of group g. -/
def isCellFor (g : Nat) : FlowInstr → Bool
  | FlowInstr.cell g2 _ _ _ _ _ => g2 == g
  | _ => false

/-- The shot carried by a cell instruction, if any. -/
def cellShot : FlowInstr → Option Shot
  | FlowInstr.cell _ _ _ _ shot _ => some shot
  | _ => none

/-- The shots of all cell instructions of a trace, in emission order. -/
def cellShots (tr : List FlowInstr) : List Shot :=
  tr.filterMap cellShot

/-- Erase the image draws from a trace: keep every instruction but force
the imageDrawn flag of each cell to false. -/
def eraseImages (tr : List FlowInstr) : List FlowInstr :=
  tr.map (fun e =>
    match e with
    | FlowInstr.cell g p r c shot _ => FlowInstr.cell g p r c shot false
    | other => other)

end Flow

/-- An axis-aligned rectangle in centipoints (x, y top-left origin). -/
structure Rect where
  x : Nat
  y : Nat
  w : Nat
  h : Nat
deriving DecidableEq

/-- Two rectangles overlap when their interiors intersect (touching
edges do not count as overlap). -/
def rectsOverlap (a b : Rect) : Prop :=
  a.x < b.x + b.w ∧ b.x < a.x + a.w ∧ a.y < b.y + b.h ∧ b.y < a.y + a.h

instance (a b : Rect) : Decidable (rectsOverlap a b) := by
  unfold rectsOverlap
  infer_instance

namespace VEngine

/-- Layout constants of the third src/server.js variant, lines 636-643
(centipoints): row height 130 + 60 + 16 points, header band 30 points. -/
def IMAGE_HEIGHT : Nat := 13000

def TEXT_BLOCK_HEIGHT : Nat := 6000

def ROW_SPACING : Nat := 1600

def ROW_HEIGHT : Nat := IMAGE_HEIGHT + TEXT_BLOCK_HEIGHT + ROW_SPACING

def HEADER_HEIGHT : Nat := 3000

/-- Page coordinates for A4 / 40 point margins: top of the content area,
left edge, bottom limit, and the two-column cell width. -/
def TOP : Nat := A4.margin

def LEFT : Nat := A4.margin

/-- bottomLimit(): page height minus bottom margin. -/
def BOTTOM : Nat := A4.height - A4.margin

/-- cellWidth = usableWidth / 2 as computed in the shot loop. -/
def CELL_WIDTH : Nat := (A4.width - A4.margin - A4.margin) / 2

/-- The mutable layout state of the third variant, lines 645-651:
current page (1-based), the y cursor, and the current column (0 or 1). -/
structure VState where
  page : Nat
  currentY : Nat
  column : Nat
deriving DecidableEq

/-- startNewPage, lines 645-651: fresh page, y at the top margin,
column 0. -/
def vStartNewPage (st : VState) : VState :=
  { page := st.page + 1, currentY := TOP, column := 0 }

/-- Draw instructions of the third variant: a scene header band at a y
offset, or one shot cell at (x, y). -/
inductive VInstr where
  | header (page y : Nat) (scene : String)
  | cell (page x y : Nat) (shot : Shot) (imageDrawn : Bool)
deriving DecidableEq

/-- drawSceneHeader, lines 653-676: draw the header at the current y,
advance the cursor by HEADER_HEIGHT and reset the column to 0. -/
def vDrawSceneHeader (scene : String) (st : VState) : VInstr × VState :=
  (VInstr.header st.page st.currentY scene,
   { st with currentY := st.currentY + HEADER_HEIGHT, column := 0 })

/-- One iteration of the shot loop, src/server.js lines 690-796: on a
scene change, ensure room for header plus one row (new page if not) and
draw the header; then, when starting a new row, check for overflow and on
a fresh page repeat the header for a non-empty scene
(repeatHeaderIfNeeded, lines 678-681); draw the shot cell at the current
column; finally advance the column, moving the y cursor down one row
after the right-hand column. -/
def vStep (fetch : String → FetchOutcome) (shot : Shot)
    (cur : Option String) (st : VState) : List VInstr × Option String × VState :=
  let scene := jsOr shot.scene ""
  let isNew := cur ≠ some scene
  let h1 :=
    if isNew then
      let stA := if BOTTOM < st.currentY + HEADER_HEIGHT + ROW_HEIGHT
                 then vStartNewPage st else st
      let d := vDrawSceneHeader scene stA
      ([d.1], d.2)
    else ([], st)
  let st1 := h1.2
  let h2 :=
    if st1.column = 0 ∧ BOTTOM < st1.currentY + ROW_HEIGHT then
      let stB := vStartNewPage st1
      if scene ≠ "" then
        let d := vDrawSceneHeader scene stB
        ([d.1], d.2)
      else ([], stB)
    else ([], st1)
  let st2 := h2.2
  let x := LEFT + st2.column * CELL_WIDTH
  let drawn := shot.image != "" && fetch shot.image == FetchOutcome.ok
  let cellI := VInstr.cell st2.page x st2.currentY shot drawn
  let st3 :=
    if st2.column = 0 then { st2 with column := 1 }
    else { st2 with column := 0, currentY := st2.currentY + ROW_HEIGHT }
  (h1.1 ++ h2.1 ++ [cellI], some scene, st3)

/-- The shot loop folded over the shot list, threading currentScene and
the layout state. -/
def vGo (fetch : String → FetchOutcome) :
    List Shot → Option String → VState → List VInstr
  | [], _, _ => []
  | shot :: rest, cur, st =>
      let r := vStep fetch shot cur st
      r.1 ++ vGo fetch rest r.2.1 r.2.2

/-- The whole third-variant rendering: currentScene starts null and the
first page is allocated before the loop. -/
def vRender (fetch : String → FetchOutcome) (shots : List Shot) : List VInstr :=
  vGo fetch shots none { page := 1, currentY := TOP, column := 0 }

/-- The rectangular region a shot cell occupies: the cell width by the
image box plus the caption block, at the cell's top-left corner. -/
def vCellRect (x y : Nat) : Rect :=
  { x := x, y := y, w := CELL_WIDTH, h := IMAGE_HEIGHT + TEXT_BLOCK_HEIGHT }

end VEngine

namespace Grid

/-- Constants of src/unnamed/part_000 lines 30-33. -/
def GRID_COLS : Nat := 2

def GRID_ROWS : Nat := 4

def SHOTS_PER_PAGE : Nat := GRID_COLS * GRID_ROWS

/-- Draw instructions of the part_000 grid engine, at the granularity the
no-repeat claim needs: page allocations, scene header draws, and shot
cell draws. -/
inductive GInstr where
  | newPage
  | header (scene : String)
  | cell (shot : Shot)
deriving DecidableEq

/-- The per-scene shot loop of src/unnamed/part_000 lines 140-203: i is
the index within the scene; whenever i mod SHOTS_PER_PAGE is zero a page
is allocated and, for a non-empty scene label, the header is drawn at its
top; then the shot cell is drawn. -/
def gridLoop (label : String) : Nat → List Shot → List GInstr
  | _, [] => []
  | i, shot :: rest =>
      (if i % SHOTS_PER_PAGE = 0 then
        GInstr.newPage ::
          (if label ≠ "" then [GInstr.header label] else [])
      else []) ++
      (GInstr.cell shot :: gridLoop label (i + 1) rest)

/-- The scene-pages loop of src/unnamed/part_000 lines 124-204: an intro
page, then each group rendered by the per-scene loop with the group's
label (group.scene defaulted to the empty string). -/
def gridRender (groups : List SceneGroup) : List GInstr :=
  GInstr.newPage ::
    groups.flatMap (fun grp => gridLoop (jsOr grp.sceneName "") 0 grp.shots)

/-- The page number (counting newPage instructions from p) on which each
header instruction of a trace is drawn, in order. -/
def headerPages : List GInstr → Nat → List Nat
  | [], _ => []
  | GInstr.newPage :: rest, p => headerPages rest (p + 1)
  | GInstr.header _ :: rest, p => p :: headerPages rest p
  | GInstr.cell _ :: rest, p => headerPages rest p

/-- The page number on which each cell instruction of a trace is drawn,
in order. -/
def cellPages : List GInstr → Nat → List Nat
  | [], _ => []
  | GInstr.newPage :: rest, p => cellPages rest (p + 1)
  | GInstr.header _ :: rest, p => cellPages rest p
  | GInstr.cell _ :: rest, p => p :: cellPages rest p

end Grid

/-- A fetch oracle under which every retrieval fails with a thrown
error; used for concrete evaluations where images do not matter. -/
def fetchNone : String → FetchOutcome := fun _ => FetchOutcome.err

/-- A fetch oracle under which every retrieval succeeds. -/
def fetchAll : String → FetchOutcome := fun _ => FetchOutcome.ok

/-- A concrete shot in scene A with no image. -/
def shotA : Shot :=
  { image := "", scene := "A", size := "WS", description := "da", name := "Shot 1" }

/-- A concrete shot in scene B with no image. -/
def shotB : Shot :=
  { image := "", scene := "B", size := "CU", description := "db", name := "Shot 2" }

/-- Nine copies of a scene-A shot: one scene group that overflows the
eight-cell page of the part_000 grid engine. -/
def nineShots : List Shot := List.replicate 9 shotA

/-- A pathological page geometry whose width equals the two margins, so
the usable width and hence the computed cell width are zero, while the
height is the A4 height. -/
def degenGeom : PageGeom :=
  { width := 8000, height := 84189, margin := 4000 }

theorem dropWhile_length_le (p : Shot → Bool) (l : List Shot) :
    (l.dropWhile p).length ≤ l.length := by
  induction l with
  | nil => simp
  | cons a t ih =>
      rw [List.dropWhile_cons]
      split
      · exact Nat.le_succ_of_le ih
      · simp

theorem groupBySceneAux_nil (fuel : Nat) : groupBySceneAux fuel [] = [] := by
  cases fuel <;> rfl

theorem groupBySceneAux_fuel_eq :
    ∀ (f1 f2 : Nat) (l : List Shot), l.length ≤ f1 → l.length ≤ f2 →
      groupBySceneAux f1 l = groupBySceneAux f2 l := by
  intro f1
  induction f1 with
  | zero =>
      intro f2 l h1 _
      have hl : l = [] := List.length_eq_zero.mp (Nat.le_zero.mp h1)
      subst hl
      rw [groupBySceneAux_nil, groupBySceneAux_nil]
  | succ f ih =>
      intro f2 l h1 h2
      cases l with
      | nil => rw [groupBySceneAux_nil, groupBySceneAux_nil]
      | cons s rest =>
          cases f2 with
          | zero => simp at h2
          | succ f2' =>
              simp only [groupBySceneAux]
              congr 1
              have hr1 : rest.length ≤ f := Nat.succ_le_succ_iff.mp h1
              have hr2 : rest.length ≤ f2' := Nat.succ_le_succ_iff.mp h2
              exact ih f2' _
                (le_trans (dropWhile_length_le _ _) hr1)
                (le_trans (dropWhile_length_le _ _) hr2)

theorem groupFoldAux_eq :
    ∀ (rest : List Shot) (cur : String) (acc : List Shot) (fuel : Nat),
      rest.length ≤ fuel →
      groupFoldAux cur acc rest =
        { sceneName := cur,
          shots := acc ++ rest.takeWhile (fun t => jsOr t.scene "" == cur) } ::
          groupBySceneAux fuel (rest.dropWhile (fun t => jsOr t.scene "" == cur)) := by
  intro rest
  induction rest with
  | nil =>
      intro cur acc fuel _
      simp [groupFoldAux, groupBySceneAux_nil]
  | cons shot rest ih =>
      intro cur acc fuel hfuel
      by_cases hsc : jsOr shot.scene "" = cur
      · rw [show groupFoldAux cur acc (shot :: rest) =
              groupFoldAux cur (acc ++ [shot]) rest by
            simp [groupFoldAux, hsc]]
        rw [ih cur (acc ++ [shot]) fuel
              (le_trans (Nat.le_succ _) hfuel)]
        rw [List.takeWhile_cons, List.dropWhile_cons]
        simp [hsc]
      · rw [show groupFoldAux cur acc (shot :: rest) =
              { sceneName := cur, shots := acc } ::
                groupFoldAux (jsOr shot.scene "") [shot] rest by
            simp [groupFoldAux, hsc]]
        rw [List.takeWhile_cons, List.dropWhile_cons]
        have hb : (jsOr shot.scene "" == cur) = false := by
          simp [hsc]
        rw [hb]
        simp only [Bool.false_eq_true, if_false, List.append_nil]
        congr 1
        cases fuel with
        | zero => simp at hfuel
        | succ f =>
            have hr : rest.length ≤ f := Nat.succ_le_succ_iff.mp hfuel
            rw [ih (jsOr shot.scene "") [shot] f hr]
            simp only [groupBySceneAux]
            rfl

theorem groupBySceneGrid_eq (shots : List Shot) :
    groupBySceneGrid shots = groupByScene shots := by
  cases shots with
  | nil => rfl
  | cons shot rest =>
      show groupFoldAux (jsOr shot.scene "") [shot] rest =
        groupByScene (shot :: rest)
      unfold groupByScene
      rw [groupFoldAux_eq rest (jsOr shot.scene "") [shot] rest.length (le_refl _)]
      simp only [List.length_cons, groupBySceneAux]
      rfl

theorem joinShots_groupFoldAux :
    ∀ (rest : List Shot) (cur : String) (acc : List Shot),
      ((groupFoldAux cur acc rest).map SceneGroup.shots).flatten = acc ++ rest := by
  intro rest
  induction rest with
  | nil => intro cur acc; simp [groupFoldAux]
  | cons shot rest ih =>
      intro cur acc
      by_cases hsc : jsOr shot.scene "" = cur
      · rw [show groupFoldAux cur acc (shot :: rest) =
              groupFoldAux cur (acc ++ [shot]) rest by simp [groupFoldAux, hsc]]
        rw [ih cur (acc ++ [shot])]
        simp
      · rw [show groupFoldAux cur acc (shot :: rest) =
              { sceneName := cur, shots := acc } ::
                groupFoldAux (jsOr shot.scene "") [shot] rest by
            simp [groupFoldAux, hsc]]
        simp only [List.map_cons, List.flatten_cons]
        rw [ih (jsOr shot.scene "") [shot]]
        simp

theorem join_groupByScene (shots : List Shot) :
    ((groupByScene shots).map SceneGroup.shots).flatten = shots := by
  rw [← groupBySceneGrid_eq]
  cases shots with
  | nil => rfl
  | cons shot rest =>
      show ((groupFoldAux (jsOr shot.scene "") [shot] rest).map SceneGroup.shots).flatten
        = shot :: rest
      rw [joinShots_groupFoldAux]
      rfl

theorem groupFoldAux_ne_nil :
    ∀ (rest : List Shot) (cur : String) (acc : List Shot),
      acc ≠ [] → ∀ G ∈ groupFoldAux cur acc rest, G.shots ≠ [] := by
  intro rest
  induction rest with
  | nil =>
      intro cur acc hacc G hG
      simp [groupFoldAux] at hG
      subst hG
      exact hacc
  | cons shot rest ih =>
      intro cur acc hacc G hG
      by_cases hsc : jsOr shot.scene "" = cur
      · rw [show groupFoldAux cur acc (shot :: rest) =
              groupFoldAux cur (acc ++ [shot]) rest by simp [groupFoldAux, hsc]] at hG
        exact ih cur (acc ++ [shot]) (by simp) G hG
      · rw [show groupFoldAux cur acc (shot :: rest) =
              { sceneName := cur, shots := acc } ::
                groupFoldAux (jsOr shot.scene "") [shot] rest by
            simp [groupFoldAux, hsc]] at hG
        rcases List.mem_cons.mp hG with h | h
        · subst h; exact hacc
        · exact ih (jsOr shot.scene "") [shot] (by simp) G h

theorem groupFoldAux_labels :
    ∀ (rest : List Shot) (cur : String) (acc : List Shot),
      (∀ t ∈ acc, jsOr t.scene "" = cur) →
      ∀ G ∈ groupFoldAux cur acc rest, ∀ t ∈ G.shots, jsOr t.scene "" = G.sceneName := by
  intro rest
  induction rest with
  | nil =>
      intro cur acc hacc G hG t ht
      simp [groupFoldAux] at hG
      subst hG
      exact hacc t ht
  | cons shot rest ih =>
      intro cur acc hacc G hG t ht
      by_cases hsc : jsOr shot.scene "" = cur
      · rw [show groupFoldAux cur acc (shot :: rest) =
              groupFoldAux cur (acc ++ [shot]) rest by simp [groupFoldAux, hsc]] at hG
        refine ih cur (acc ++ [shot]) ?_ G hG t ht
        intro u hu
        rcases List.mem_append.mp hu with h | h
        · exact hacc u h
        · simp at h; subst h; exact hsc
      · rw [show groupFoldAux cur acc (shot :: rest) =
              { sceneName := cur, shots := acc } ::
                groupFoldAux (jsOr shot.scene "") [shot] rest by
            simp [groupFoldAux, hsc]] at hG
        rcases List.mem_cons.mp hG with h | h
        · subst h; exact hacc t ht
        · refine ih (jsOr shot.scene "") [shot] ?_ G h t ht
          intro u hu
          simp at hu
          subst hu
          rfl

theorem groupFoldAux_head :
    ∀ (rest : List Shot) (cur : String) (acc : List Shot),
      ∃ G tail, groupFoldAux cur acc rest = G :: tail ∧ G.sceneName = cur := by
  intro rest
  induction rest with
  | nil =>
      intro cur acc
      exact ⟨{ sceneName := cur, shots := acc }, [], rfl, rfl⟩
  | cons shot rest ih =>
      intro cur acc
      by_cases hsc : jsOr shot.scene "" = cur
      · rw [show groupFoldAux cur acc (shot :: rest) =
              groupFoldAux cur (acc ++ [shot]) rest by simp [groupFoldAux, hsc]]
        exact ih cur (acc ++ [shot])
      · exact ⟨{ sceneName := cur, shots := acc },
          groupFoldAux (jsOr shot.scene "") [shot] rest,
          by simp [groupFoldAux, hsc], rfl⟩

theorem groupFoldAux_chain :
    ∀ (rest : List Shot) (cur : String) (acc : List Shot),
      List.Chain' (fun a b => a.sceneName ≠ b.sceneName) (groupFoldAux cur acc rest) := by
  intro rest
  induction rest with
  | nil => intro cur acc; simp [groupFoldAux]
  | cons shot rest ih =>
      intro cur acc
      by_cases hsc : jsOr shot.scene "" = cur
      · rw [show groupFoldAux cur acc (shot :: rest) =
              groupFoldAux cur (acc ++ [shot]) rest by simp [groupFoldAux, hsc]]
        exact ih cur (acc ++ [shot])
      · rw [show groupFoldAux cur acc (shot :: rest) =
              { sceneName := cur, shots := acc } ::
                groupFoldAux (jsOr shot.scene "") [shot] rest by
            simp [groupFoldAux, hsc]]
        rw [List.chain'_cons']
        constructor
        · intro G hG
          obtain ⟨G0, tail, heq, hname⟩ := groupFoldAux_head rest (jsOr shot.scene "") [shot]
          rw [heq] at hG
          simp at hG
          subst hG
          rw [hname]
          intro hcontra
          exact hsc hcontra.symm
        · exact ih (jsOr shot.scene "") [shot]

theorem groupBySceneGrid_ne_nil (shots : List Shot) :
    ∀ G ∈ groupBySceneGrid shots, G.shots ≠ [] := by
  cases shots with
  | nil => intro G hG; simp [groupBySceneGrid] at hG
  | cons shot rest =>
      intro G hG
      exact groupFoldAux_ne_nil rest (jsOr shot.scene "") [shot] (by simp) G hG

theorem groupBySceneGrid_labels (shots : List Shot) :
    ∀ G ∈ groupBySceneGrid shots, ∀ t ∈ G.shots, jsOr t.scene "" = G.sceneName := by
  cases shots with
  | nil => intro G hG; simp [groupBySceneGrid] at hG
  | cons shot rest =>
      intro G hG
      refine groupFoldAux_labels rest (jsOr shot.scene "") [shot] ?_ G hG
      intro u hu
      simp at hu
      subst hu
      rfl

theorem groupBySceneGrid_chain (shots : List Shot) :
    List.Chain' (fun a b => a.sceneName ≠ b.sceneName) (groupBySceneGrid shots) := by
  cases shots with
  | nil => simp [groupBySceneGrid]
  | cons shot rest => exact groupFoldAux_chain rest (jsOr shot.scene "") [shot]

theorem groupByScene_ne_nil (shots : List Shot) :
    ∀ G ∈ groupByScene shots, G.shots ≠ [] := by
  rw [← groupBySceneGrid_eq]
  exact groupBySceneGrid_ne_nil shots

theorem groupByScene_labels (shots : List Shot) :
    ∀ G ∈ groupByScene shots, ∀ t ∈ G.shots, jsOr t.scene "" = G.sceneName := by
  rw [← groupBySceneGrid_eq]
  exact groupBySceneGrid_labels shots

theorem groupByScene_chain (shots : List Shot) :
    List.Chain' (fun a b => a.sceneName ≠ b.sceneName) (groupByScene shots) := by
  rw [← groupBySceneGrid_eq]
  exact groupBySceneGrid_chain shots

namespace Flow

theorem shotCells_ge (fetch : String → FetchOutcome) (g page row : Nat)
    (sceneShots : List Shot) :
    ∀ colsLeft col i,
      i ≤ (shotCells fetch g page row sceneShots colsLeft col i).2 := by
  intro colsLeft
  induction colsLeft with
  | zero => intro col i; simp [shotCells]
  | succ c ih =>
      intro col i
      simp only [shotCells]
      cases h : sceneShots[i]? with
      | none => simp
      | some shot =>
          simp only []
          exact le_trans (Nat.le_succ i) (ih (col + 1) (i + 1))

theorem shotCells_le (fetch : String → FetchOutcome) (g page row : Nat)
    (sceneShots : List Shot) :
    ∀ colsLeft col i,
      (shotCells fetch g page row sceneShots colsLeft col i).2 ≤ i + colsLeft := by
  intro colsLeft
  induction colsLeft with
  | zero => intro col i; simp [shotCells]
  | succ c ih =>
      intro col i
      simp only [shotCells]
      cases h : sceneShots[i]? with
      | none => simp
      | some shot =>
          simp only []
          calc (shotCells fetch g page row sceneShots c (col + 1) (i + 1)).2
              ≤ (i + 1) + c := ih (col + 1) (i + 1)
            _ = i + (c + 1) := by omega

theorem shotCells_gt (fetch : String → FetchOutcome) (g page row : Nat)
    (sceneShots : List Shot) (colsLeft col i : Nat)
    (hi : i < sceneShots.length) (hc : 0 < colsLeft) :
    i < (shotCells fetch g page row sceneShots colsLeft col i).2 := by
  cases colsLeft with
  | zero => omega
  | succ c =>
      simp only [shotCells]
      rw [List.getElem?_eq_getElem hi]
      simp only []
      exact Nat.lt_of_succ_le (shotCells_ge fetch g page row sceneShots c (col + 1) (i + 1))

theorem shotCells_le_len (fetch : String → FetchOutcome) (g page row : Nat)
    (sceneShots : List Shot) :
    ∀ colsLeft col i, i ≤ sceneShots.length →
      (shotCells fetch g page row sceneShots colsLeft col i).2 ≤ sceneShots.length := by
  intro colsLeft
  induction colsLeft with
  | zero => intro col i hi; simpa [shotCells] using hi
  | succ c ih =>
      intro col i hi
      simp only [shotCells]
      cases h : sceneShots[i]? with
      | none => simpa using hi
      | some shot =>
          have hlt : i < sceneShots.length := by
            by_contra hge
            rw [List.getElem?_eq_none (Nat.le_of_not_lt hge)] at h
            exact Option.noConfusion h
          exact ih (col + 1) (i + 1) hlt

theorem shotCells_cellShots (fetch : String → FetchOutcome) (g page row : Nat)
    (sceneShots : List Shot) :
    ∀ colsLeft col i,
      cellShots (shotCells fetch g page row sceneShots colsLeft col i).1 =
        (sceneShots.drop i).take
          ((shotCells fetch g page row sceneShots colsLeft col i).2 - i) := by
  intro colsLeft
  induction colsLeft with
  | zero => intro col i; simp [shotCells, cellShots]
  | succ c ih =>
      intro col i
      simp only [shotCells]
      cases h : sceneShots[i]? with
      | none => simp [cellShots]
      | some shot =>
          have hlt : i < sceneShots.length := by
            by_contra hge
            rw [List.getElem?_eq_none (Nat.le_of_not_lt hge)] at h
            exact Option.noConfusion h
          simp only [cellShots, List.filterMap_cons, cellShot]
          rw [show (List.filterMap cellShot
                (shotCells fetch g page row sceneShots c (col + 1) (i + 1)).1) =
              cellShots (shotCells fetch g page row sceneShots c (col + 1) (i + 1)).1
            from rfl]
          rw [ih (col + 1) (i + 1)]
          have hge1 : i + 1 ≤ (shotCells fetch g page row sceneShots c (col + 1) (i + 1)).2 :=
            shotCells_ge fetch g page row sceneShots c (col + 1) (i + 1)
          have hdrop : sceneShots.drop i = shot :: sceneShots.drop (i + 1) := by
            rw [List.drop_eq_getElem_cons hlt]
            congr 1
            have := List.getElem?_eq_getElem hlt
            rw [this] at h
            exact (Option.some.injEq _ _).mp h
          rw [hdrop]
          have hsub : (shotCells fetch g page row sceneShots c (col + 1) (i + 1)).2 - i =
              ((shotCells fetch g page row sceneShots c (col + 1) (i + 1)).2 - (i + 1)) + 1 := by
            omega
          rw [hsub]
          rfl

theorem shotCells_tags (fetch : String → FetchOutcome) (g page row : Nat)
    (sceneShots : List Shot) :
    ∀ colsLeft col i e, e ∈ (shotCells fetch g page row sceneShots colsLeft col i).1 →
      ∃ c2 shot b, e = FlowInstr.cell g page row c2 shot b := by
  intro colsLeft
  induction colsLeft with
  | zero => intro col i e he; simp [shotCells] at he
  | succ c ih =>
      intro col i e he
      simp only [shotCells] at he
      cases h : sceneShots[i]? with
      | none => rw [h] at he; simp at he
      | some shot =>
          rw [h] at he
          simp only [List.mem_cons] at he
          rcases he with he | he
          · exact ⟨col, shot, _, he⟩
          · exact ih (col + 1) (i + 1) e he

theorem shotCells_fetch (f f2 : String → FetchOutcome) (g page row : Nat)
    (sceneShots : List Shot) :
    ∀ colsLeft col i,
      (shotCells f g page row sceneShots colsLeft col i).2 =
        (shotCells f2 g page row sceneShots colsLeft col i).2 ∧
      eraseImages (shotCells f g page row sceneShots colsLeft col i).1 =
        eraseImages (shotCells f2 g page row sceneShots colsLeft col i).1 := by
  intro colsLeft
  induction colsLeft with
  | zero => intro col i; simp [shotCells]
  | succ c ih =>
      intro col i
      simp only [shotCells]
      cases h : sceneShots[i]? with
      | none => simp
      | some shot =>
          obtain ⟨h2, h1⟩ := ih (col + 1) (i + 1)
          constructor
          · exact h2
          · simp only [eraseImages, List.map_cons]
            rw [show (List.map _ (shotCells f g page row sceneShots c (col + 1) (i + 1)).1) =
                eraseImages (shotCells f g page row sceneShots c (col + 1) (i + 1)).1 from rfl,
              show (List.map _ (shotCells f2 g page row sceneShots c (col + 1) (i + 1)).1) =
                eraseImages (shotCells f2 g page row sceneShots c (col + 1) (i + 1)).1 from rfl]
            rw [h1]

theorem shotCells_head (fetch : String → FetchOutcome) (g page row : Nat)
    (sceneShots : List Shot) (i : Nat) (hi : i < sceneShots.length) :
    ∃ shot b tail,
      sceneShots[i]? = some shot ∧
      (shotCells fetch g page row sceneShots COLS 0 i).1 =
        FlowInstr.cell g page row 0 shot b :: tail := by
  have h := List.getElem?_eq_getElem hi
  refine ⟨sceneShots[i],
    sceneShots[i].image != "" && fetch sceneShots[i].image == FetchOutcome.ok,
    (shotCells fetch g page row sceneShots 1 1 (i + 1)).1, h, ?_⟩
  show (shotCells fetch g page row sceneShots 2 0 i).1 = _
  simp only [shotCells]
  rw [h]


theorem cellShots_append (l1 l2 : List FlowInstr) :
    cellShots (l1 ++ l2) = cellShots l1 ++ cellShots l2 := by
  simp [cellShots]

theorem eraseImages_append (l1 l2 : List FlowInstr) :
    eraseImages (l1 ++ l2) = eraseImages l1 ++ eraseImages l2 := by
  simp [eraseImages]

theorem renderRowsAux_succ (fetch : String → FetchOutcome) (L : Layout) (g : Nat)
    (sceneShots : List Shot) (fuel shotIndex : Nat) (st : FState)
    (hlt : shotIndex < sceneShots.length) :
    renderRowsAux fetch L g sceneShots (fuel + 1) shotIndex st =
      ((shotCells fetch g (ensureRows L st 1).page (ensureRows L st 1).rowIndex
          sceneShots COLS 0 shotIndex).1 ++
        (renderRowsAux fetch L g sceneShots fuel
          (shotCells fetch g (ensureRows L st 1).page (ensureRows L st 1).rowIndex
            sceneShots COLS 0 shotIndex).2
          { page := (ensureRows L st 1).page,
            rowIndex := (ensureRows L st 1).rowIndex + 1 }).1,
       (renderRowsAux fetch L g sceneShots fuel
          (shotCells fetch g (ensureRows L st 1).page (ensureRows L st 1).rowIndex
            sceneShots COLS 0 shotIndex).2
          { page := (ensureRows L st 1).page,
            rowIndex := (ensureRows L st 1).rowIndex + 1 }).2) := by
  simp only [renderRowsAux, drawShotRow, if_pos hlt]

theorem renderRowsAux_stop (fetch : String → FetchOutcome) (L : Layout) (g : Nat)
    (sceneShots : List Shot) (fuel shotIndex : Nat) (st : FState)
    (hge : ¬ shotIndex < sceneShots.length) :
    renderRowsAux fetch L g sceneShots fuel shotIndex st = ([], st) := by
  cases fuel with
  | zero => rfl
  | succ fuel => simp only [renderRowsAux, if_neg hge]

theorem rows_cellShots (fetch : String → FetchOutcome) (L : Layout) (g : Nat)
    (sceneShots : List Shot) :
    ∀ fuel shotIndex st, sceneShots.length ≤ fuel + shotIndex →
      cellShots (renderRowsAux fetch L g sceneShots fuel shotIndex st).1 =
        sceneShots.drop shotIndex := by
  intro fuel
  induction fuel with
  | zero =>
      intro shotIndex st hfuel
      rw [renderRowsAux_stop fetch L g sceneShots 0 shotIndex st (by omega)]
      rw [List.drop_eq_nil_of_le (by omega)]
      rfl
  | succ fuel ih =>
      intro shotIndex st hfuel
      by_cases hlt : shotIndex < sceneShots.length
      · rw [renderRowsAux_succ fetch L g sceneShots fuel shotIndex st hlt]
        set st1 := ensureRows L st 1 with hst1
        set i2 := (shotCells fetch g st1.page st1.rowIndex sceneShots COLS 0 shotIndex).2
          with hi2
        have hgt : shotIndex < i2 :=
          shotCells_gt fetch g st1.page st1.rowIndex sceneShots COLS 0 shotIndex hlt
            (by norm_num [COLS])
        have hle : i2 ≤ sceneShots.length :=
          shotCells_le_len fetch g st1.page st1.rowIndex sceneShots COLS 0 shotIndex
            (Nat.le_of_lt hlt)
        rw [cellShots_append]
        rw [shotCells_cellShots fetch g st1.page st1.rowIndex sceneShots COLS 0 shotIndex]
        rw [ih i2 { page := st1.page, rowIndex := st1.rowIndex + 1 } (by omega)]
        rw [show sceneShots.drop i2 = (sceneShots.drop shotIndex).drop (i2 - shotIndex) by
          rw [List.drop_drop]
          congr 1
          omega]
        rw [← hi2]
        exact List.take_append_drop _ _
      · rw [renderRowsAux_stop fetch L g sceneShots (fuel + 1) shotIndex st hlt]
        rw [List.drop_eq_nil_of_le (by omega)]
        rfl

theorem rows_cells (fetch : String → FetchOutcome) (L : Layout) (g : Nat)
    (sceneShots : List Shot) :
    ∀ fuel shotIndex st e,
      e ∈ (renderRowsAux fetch L g sceneShots fuel shotIndex st).1 →
      ∃ p r c shot b, e = FlowInstr.cell g p r c shot b := by
  intro fuel
  induction fuel with
  | zero =>
      intro shotIndex st e he
      rw [show renderRowsAux fetch L g sceneShots 0 shotIndex st = ([], st) from rfl] at he
      simp at he
  | succ fuel ih =>
      intro shotIndex st e he
      by_cases hlt : shotIndex < sceneShots.length
      · rw [renderRowsAux_succ fetch L g sceneShots fuel shotIndex st hlt] at he
        rcases List.mem_append.mp he with h | h
        · obtain ⟨c2, shot, b, hb⟩ :=
            shotCells_tags fetch g (ensureRows L st 1).page (ensureRows L st 1).rowIndex
              sceneShots COLS 0 shotIndex e h
          exact ⟨_, _, c2, shot, b, hb⟩
        · exact ih _ _ e h
      · rw [renderRowsAux_stop fetch L g sceneShots (fuel + 1) shotIndex st hlt] at he
        simp at he

theorem rows_fetch (f f2 : String → FetchOutcome) (L : Layout) (g : Nat)
    (sceneShots : List Shot) :
    ∀ fuel shotIndex st,
      (renderRowsAux f L g sceneShots fuel shotIndex st).2 =
        (renderRowsAux f2 L g sceneShots fuel shotIndex st).2 ∧
      eraseImages (renderRowsAux f L g sceneShots fuel shotIndex st).1 =
        eraseImages (renderRowsAux f2 L g sceneShots fuel shotIndex st).1 := by
  intro fuel
  induction fuel with
  | zero =>
      intro shotIndex st
      exact ⟨rfl, rfl⟩
  | succ fuel ih =>
      intro shotIndex st
      by_cases hlt : shotIndex < sceneShots.length
      · rw [renderRowsAux_succ f L g sceneShots fuel shotIndex st hlt,
          renderRowsAux_succ f2 L g sceneShots fuel shotIndex st hlt]
        set st1 := ensureRows L st 1 with hst1
        obtain ⟨hidx, hcells⟩ :=
          shotCells_fetch f f2 g st1.page st1.rowIndex sceneShots COLS 0 shotIndex
        rw [hidx]
        obtain ⟨hrec2, hrec1⟩ :=
          ih (shotCells f2 g st1.page st1.rowIndex sceneShots COLS 0 shotIndex).2
            { page := st1.page, rowIndex := st1.rowIndex + 1 }
        refine ⟨hrec2, ?_⟩
        rw [eraseImages_append, eraseImages_append, hcells, hrec1]
      · rw [renderRowsAux_stop f L g sceneShots (fuel + 1) shotIndex st hlt,
          renderRowsAux_stop f2 L g sceneShots (fuel + 1) shotIndex st hlt]
        exact ⟨rfl, rfl⟩

theorem rows_first (fetch : String → FetchOutcome) (L : Layout) (g : Nat)
    (sceneShots : List Shot) (st : FState)
    (hne : 0 < sceneShots.length) (hfit : st.rowIndex + 1 ≤ L.maxRows) :
    ∃ shot b tail,
      sceneShots[0]? = some shot ∧
      (renderRowsAux fetch L g sceneShots sceneShots.length 0 st).1 =
        FlowInstr.cell g st.page st.rowIndex 0 shot b :: tail := by
  obtain ⟨n, hn⟩ : ∃ n, sceneShots.length = n + 1 := ⟨sceneShots.length - 1, by omega⟩
  rw [hn]
  rw [renderRowsAux_succ fetch L g sceneShots n 0 st (by omega)]
  have hst1 : ensureRows L st 1 = st := by
    unfold ensureRows
    rw [if_neg (by omega)]
  rw [hst1]
  obtain ⟨shot, b, tail0, hget, hcells⟩ :=
    shotCells_head fetch g st.page st.rowIndex sceneShots 0 hne
  refine ⟨shot, b, tail0 ++
    (renderRowsAux fetch L g sceneShots n
      (shotCells fetch g st.page st.rowIndex sceneShots COLS 0 0).2
      { page := st.page, rowIndex := st.rowIndex + 1 }).1, hget, ?_⟩
  rw [hcells]
  rfl

theorem ensureRows_fits (L : Layout) (st : FState) (hmax : 2 ≤ L.maxRows) :
    (ensureRows L st 2).rowIndex + 2 ≤ L.maxRows := by
  unfold ensureRows
  split
  · simpa [startNewPage] using hmax
  · omega

theorem group_struct (fetch : String → FetchOutcome) (L : Layout) (g : Nat)
    (grp : SceneGroup) (st : FState) (hmax : 2 ≤ L.maxRows) (hne : grp.shots ≠ []) :
    ∃ shot b tail,
      (renderGroup fetch L g grp st).1 =
        FlowInstr.header g (ensureRows L st 2).page (ensureRows L st 2).rowIndex
            grp.sceneName ::
          FlowInstr.cell g (ensureRows L st 2).page ((ensureRows L st 2).rowIndex + 1)
            0 shot b :: tail ∧
      (∀ e ∈ tail, ∃ p r c s2 b2, e = FlowInstr.cell g p r c s2 b2) := by
  have hlen : 0 < grp.shots.length := List.length_pos.mpr hne
  set st1 := ensureRows L st 2 with hst1
  have hfit : st1.rowIndex + 1 + 1 ≤ L.maxRows := by
    have := ensureRows_fits L st hmax
    rw [← hst1] at this
    omega
  obtain ⟨shot, b, tail0, hget, hrows⟩ :=
    rows_first fetch L g grp.shots { page := st1.page, rowIndex := st1.rowIndex + 1 }
      hlen hfit
  refine ⟨shot, b, tail0, ?_, ?_⟩
  · show FlowInstr.header g st1.page st1.rowIndex grp.sceneName ::
        (renderRowsAux fetch L g grp.shots grp.shots.length 0
          { page := st1.page, rowIndex := st1.rowIndex + 1 }).1 = _
    rw [hrows]
  · intro e he
    have hmem : e ∈ (renderRowsAux fetch L g grp.shots grp.shots.length 0
        { page := st1.page, rowIndex := st1.rowIndex + 1 }).1 := by
      rw [hrows]
      exact List.mem_cons_of_mem _ he
    exact rows_cells fetch L g grp.shots grp.shots.length 0 _ e hmem

theorem group_tags (fetch : String → FetchOutcome) (L : Layout) (g : Nat)
    (grp : SceneGroup) (st : FState) :
    ∀ e ∈ (renderGroup fetch L g grp st).1, instrGroup e = g := by
  intro e he
  rw [show (renderGroup fetch L g grp st).1 =
      FlowInstr.header g (ensureRows L st 2).page (ensureRows L st 2).rowIndex
          grp.sceneName ::
        (renderRowsAux fetch L g grp.shots grp.shots.length 0
          { page := (ensureRows L st 2).page,
            rowIndex := (ensureRows L st 2).rowIndex + 1 }).1 from rfl] at he
  rcases List.mem_cons.mp he with h | h
  · subst h; rfl
  · obtain ⟨p, r, c, s2, b2, hb⟩ := rows_cells fetch L g grp.shots _ _ _ e h
    subst hb
    rfl

theorem group_cellShots (fetch : String → FetchOutcome) (L : Layout) (g : Nat)
    (grp : SceneGroup) (st : FState) :
    cellShots (renderGroup fetch L g grp st).1 = grp.shots := by
  rw [show (renderGroup fetch L g grp st).1 =
      FlowInstr.header g (ensureRows L st 2).page (ensureRows L st 2).rowIndex
          grp.sceneName ::
        (renderRowsAux fetch L g grp.shots grp.shots.length 0
          { page := (ensureRows L st 2).page,
            rowIndex := (ensureRows L st 2).rowIndex + 1 }).1 from rfl]
  rw [show cellShots (FlowInstr.header g (ensureRows L st 2).page
      (ensureRows L st 2).rowIndex grp.sceneName ::
        (renderRowsAux fetch L g grp.shots grp.shots.length 0
          { page := (ensureRows L st 2).page,
            rowIndex := (ensureRows L st 2).rowIndex + 1 }).1) =
      cellShots (renderRowsAux fetch L g grp.shots grp.shots.length 0
        { page := (ensureRows L st 2).page,
          rowIndex := (ensureRows L st 2).rowIndex + 1 }).1 from rfl]
  rw [rows_cellShots fetch L g grp.shots grp.shots.length 0 _ (by omega)]
  rfl

theorem group_fetch (f f2 : String → FetchOutcome) (L : Layout) (g : Nat)
    (grp : SceneGroup) (st : FState) :
    (renderGroup f L g grp st).2 = (renderGroup f2 L g grp st).2 ∧
    eraseImages (renderGroup f L g grp st).1 =
      eraseImages (renderGroup f2 L g grp st).1 := by
  obtain ⟨h2, h1⟩ := rows_fetch f f2 L g grp.shots grp.shots.length 0
    { page := (ensureRows L st 2).page, rowIndex := (ensureRows L st 2).rowIndex + 1 }
  constructor
  · exact h2
  · have e1 : eraseImages (renderGroup f L g grp st).1 =
        FlowInstr.header g (ensureRows L st 2).page (ensureRows L st 2).rowIndex
            grp.sceneName ::
          eraseImages (renderRowsAux f L g grp.shots grp.shots.length 0
            { page := (ensureRows L st 2).page,
              rowIndex := (ensureRows L st 2).rowIndex + 1 }).1 := rfl
    have e2 : eraseImages (renderGroup f2 L g grp st).1 =
        FlowInstr.header g (ensureRows L st 2).page (ensureRows L st 2).rowIndex
            grp.sceneName ::
          eraseImages (renderRowsAux f2 L g grp.shots grp.shots.length 0
            { page := (ensureRows L st 2).page,
              rowIndex := (ensureRows L st 2).rowIndex + 1 }).1 := rfl
    rw [e1, e2, h1]

theorem filter_none {α : Type} (p : α → Bool) :
    ∀ l : List α, (∀ e ∈ l, p e = false) → l.filter p = [] := by
  intro l
  induction l with
  | nil => intro _; rfl
  | cons a t ih =>
      intro h
      rw [List.filter_cons_of_neg]
      · exact ih (fun e he => h e (List.mem_cons_of_mem a he))
      · simp [h a (List.mem_cons_self a t)]

theorem find?_append_none {α : Type} (p : α → Bool) :
    ∀ (l1 l2 : List α), (∀ e ∈ l1, p e = false) →
      (l1 ++ l2).find? p = l2.find? p := by
  intro l1
  induction l1 with
  | nil => intro l2 _; rfl
  | cons a t ih =>
      intro l2 h
      rw [List.cons_append, List.find?_cons_of_neg]
      · exact ih l2 (fun e he => h e (List.mem_cons_of_mem a he))
      · simp [h a (List.mem_cons_self a t)]

theorem isHeaderFor_false_of_tag {g : Nat} {e : FlowInstr}
    (h : instrGroup e ≠ g) : isHeaderFor g e = false := by
  cases e with
  | header g2 p r sc =>
      simp only [instrGroup] at h
      simp [isHeaderFor, h]
  | cell g2 p r c s b => rfl

theorem isCellFor_false_of_tag {g : Nat} {e : FlowInstr}
    (h : instrGroup e ≠ g) : isCellFor g e = false := by
  cases e with
  | header g2 p r sc => rfl
  | cell g2 p r c s b =>
      simp only [instrGroup] at h
      simp [isCellFor, h]

theorem renderGroups_cons (fetch : String → FetchOutcome) (L : Layout)
    (g : Nat) (grp : SceneGroup) (more : List SceneGroup) (st : FState) :
    renderGroups fetch L g (grp :: more) st =
      ((renderGroup fetch L g grp st).1 ++
        (renderGroups fetch L (g + 1) more (renderGroup fetch L g grp st).2).1,
       (renderGroups fetch L (g + 1) more (renderGroup fetch L g grp st).2).2) := by
  rfl

theorem groups_tags (fetch : String → FetchOutcome) (L : Layout) :
    ∀ (gs : List SceneGroup) (g0 : Nat) (st : FState) (e : FlowInstr),
      e ∈ (renderGroups fetch L g0 gs st).1 →
      g0 ≤ instrGroup e ∧ instrGroup e < g0 + gs.length := by
  intro gs
  induction gs with
  | nil => intro g0 st e he; simp [renderGroups] at he
  | cons grp more ih =>
      intro g0 st e he
      rw [renderGroups_cons] at he
      rcases List.mem_append.mp he with h | h
      · have := group_tags fetch L g0 grp st e h
        rw [this]
        simp
      · have := ih (g0 + 1) _ e h
        constructor <;> [omega; (simp only [List.length_cons]; omega)]

theorem groups_cellShots (fetch : String → FetchOutcome) (L : Layout) :
    ∀ (gs : List SceneGroup) (g0 : Nat) (st : FState),
      cellShots (renderGroups fetch L g0 gs st).1 =
        (gs.map SceneGroup.shots).flatten := by
  intro gs
  induction gs with
  | nil => intro g0 st; rfl
  | cons grp more ih =>
      intro g0 st
      rw [renderGroups_cons]
      show cellShots ((renderGroup fetch L g0 grp st).1 ++ _) = _
      rw [cellShots_append, group_cellShots, ih]
      rfl

theorem groups_fetch (f f2 : String → FetchOutcome) (L : Layout) :
    ∀ (gs : List SceneGroup) (g0 : Nat) (st : FState),
      (renderGroups f L g0 gs st).2 = (renderGroups f2 L g0 gs st).2 ∧
      eraseImages (renderGroups f L g0 gs st).1 =
        eraseImages (renderGroups f2 L g0 gs st).1 := by
  intro gs
  induction gs with
  | nil => intro g0 st; exact ⟨rfl, rfl⟩
  | cons grp more ih =>
      intro g0 st
      rw [renderGroups_cons, renderGroups_cons]
      obtain ⟨hs2, hs1⟩ := group_fetch f f2 L g0 grp st
      rw [hs2]
      obtain ⟨hr2, hr1⟩ := ih (g0 + 1) (renderGroup f2 L g0 grp st).2
      constructor
      · exact hr2
      · show eraseImages ((renderGroup f L g0 grp st).1 ++ _) =
          eraseImages ((renderGroup f2 L g0 grp st).1 ++ _)
        rw [eraseImages_append, eraseImages_append, hs1, hr1]

theorem groups_find (fetch : String → FetchOutcome) (L : Layout)
    (hmax : 2 ≤ L.maxRows) :
    ∀ (gs : List SceneGroup) (g0 : Nat) (st : FState),
      (∀ grp ∈ gs, grp.shots ≠ []) →
      ∀ g, g0 ≤ g → g < g0 + gs.length →
      ∃ p r sc shot b,
        ((renderGroups fetch L g0 gs st).1.filter (isHeaderFor g)) =
          [FlowInstr.header g p r sc] ∧
        ((renderGroups fetch L g0 gs st).1.find? (isCellFor g)) =
          some (FlowInstr.cell g p (r + 1) 0 shot b) := by
  intro gs
  induction gs with
  | nil =>
      intro g0 st _ g hge hlt
      simp at hlt
      omega
  | cons grp more ih =>
      intro g0 st hne g hge hlt
      rw [renderGroups_cons]
      by_cases hg : g = g0
      · subst hg
        obtain ⟨shot, b, tail, hseg, htail⟩ :=
          group_struct fetch L g grp st hmax (hne grp (List.mem_cons_self grp more))
        refine ⟨(ensureRows L st 2).page, (ensureRows L st 2).rowIndex,
          grp.sceneName, shot, b, ?_, ?_⟩
        · show ((renderGroup fetch L g grp st).1 ++
            (renderGroups fetch L (g + 1) more (renderGroup fetch L g grp st).2).1).filter
              (isHeaderFor g) = _
          rw [List.filter_append, hseg]
          rw [List.filter_cons_of_pos (by simp [isHeaderFor])]
          rw [List.filter_cons_of_neg (by simp [isHeaderFor])]
          rw [filter_none (isHeaderFor g) tail ?side1, filter_none (isHeaderFor g) _ ?side2]
          case side1 =>
            intro e he
            obtain ⟨p2, r2, c2, s2, b2, hb⟩ := htail e he
            subst hb
            rfl
          case side2 =>
            intro e he
            have := groups_tags fetch L more (g + 1) _ e he
            exact isHeaderFor_false_of_tag (by omega)
          rw [List.append_nil]
        · show ((renderGroup fetch L g grp st).1 ++
            (renderGroups fetch L (g + 1) more (renderGroup fetch L g grp st).2).1).find?
              (isCellFor g) = _
          rw [hseg]
          rw [List.cons_append, List.cons_append]
          rw [List.find?_cons_of_neg _ (by simp [isCellFor])]
          rw [List.find?_cons_of_pos _ (by simp [isCellFor])]
      · have hg1 : g0 + 1 ≤ g := by omega
        have hne2 : ∀ grp2 ∈ more, grp2.shots ≠ [] :=
          fun grp2 h2 => hne grp2 (List.mem_cons_of_mem grp h2)
        obtain ⟨p, r, sc, shot, b, hfil, hfind⟩ :=
          ih (g0 + 1) (renderGroup fetch L g0 grp st).2 hne2 g hg1
            (by simp only [List.length_cons] at hlt; omega)
        refine ⟨p, r, sc, shot, b, ?_, ?_⟩
        · show ((renderGroup fetch L g0 grp st).1 ++
            (renderGroups fetch L (g0 + 1) more (renderGroup fetch L g0 grp st).2).1).filter
              (isHeaderFor g) = _
          rw [List.filter_append]
          rw [filter_none (isHeaderFor g) _ ?side3]
          case side3 =>
            intro e he
            have := group_tags fetch L g0 grp st e he
            exact isHeaderFor_false_of_tag (by omega)
          rw [List.nil_append]
          exact hfil
        · show ((renderGroup fetch L g0 grp st).1 ++
            (renderGroups fetch L (g0 + 1) more (renderGroup fetch L g0 grp st).2).1).find?
              (isCellFor g) = _
          rw [find?_append_none (isCellFor g) _ _ ?side4]
          case side4 =>
            intro e he
            have := group_tags fetch L g0 grp st e he
            exact isCellFor_false_of_tag (by omega)
          exact hfind

end Flow

namespace VEngine

theorem vStep_header_below (fetch : String → FetchOutcome) (shot : Shot)
    (cur : Option String) (st : VState) :
    ∀ p y sc, VInstr.header p y sc ∈ (vStep fetch shot cur st).1 →
      ∃ x y2 s2 b, VInstr.cell p x y2 s2 b ∈ (vStep fetch shot cur st).1 ∧ y < y2 := by
  intro p y sc hmem
  by_cases hnew : cur ≠ some (jsOr shot.scene "")
  · by_cases hov : BOTTOM < st.currentY + HEADER_HEIGHT + ROW_HEIGHT
    · have hred : (vStep fetch shot cur st).1 =
          [VInstr.header (st.page + 1) TOP (jsOr shot.scene ""),
           VInstr.cell (st.page + 1) (LEFT + 0 * CELL_WIDTH) (TOP + HEADER_HEIGHT) shot
             (shot.image != "" && fetch shot.image == FetchOutcome.ok)] := by
        simp only [vStep, vDrawSceneHeader, vStartNewPage, if_pos hnew, if_pos hov]
        rw [if_neg (by simp only [TOP, BOTTOM, ROW_HEIGHT, IMAGE_HEIGHT,
          TEXT_BLOCK_HEIGHT, ROW_SPACING, HEADER_HEIGHT, A4]; omega)]
        rfl
      rw [hred] at hmem ⊢
      simp only [List.mem_cons, List.not_mem_nil, or_false] at hmem
      rcases hmem with h | h
      · cases h
        refine ⟨LEFT + 0 * CELL_WIDTH, TOP + HEADER_HEIGHT, shot,
          shot.image != "" && fetch shot.image == FetchOutcome.ok, by simp, ?_⟩
        simp only [TOP, HEADER_HEIGHT, A4]
        omega
      · cases h
    · have hred : (vStep fetch shot cur st).1 =
          [VInstr.header st.page st.currentY (jsOr shot.scene ""),
           VInstr.cell st.page (LEFT + 0 * CELL_WIDTH) (st.currentY + HEADER_HEIGHT) shot
             (shot.image != "" && fetch shot.image == FetchOutcome.ok)] := by
        simp only [vStep, vDrawSceneHeader, vStartNewPage, if_pos hnew, if_neg hov]
        rw [if_neg (by
          simp only [BOTTOM, ROW_HEIGHT, IMAGE_HEIGHT, TEXT_BLOCK_HEIGHT,
            ROW_SPACING, HEADER_HEIGHT, A4] at hov ⊢
          omega)]
        rfl
      rw [hred] at hmem ⊢
      simp only [List.mem_cons, List.not_mem_nil, or_false] at hmem
      rcases hmem with h | h
      · cases h
        refine ⟨LEFT + 0 * CELL_WIDTH, st.currentY + HEADER_HEIGHT, shot,
          shot.image != "" && fetch shot.image == FetchOutcome.ok, by simp, ?_⟩
        simp only [HEADER_HEIGHT]
        omega
      · cases h
  · by_cases hov2 : st.column = 0 ∧ BOTTOM < st.currentY + ROW_HEIGHT
    · by_cases hsc2 : jsOr shot.scene "" ≠ ""
      · have hred : (vStep fetch shot cur st).1 =
            [VInstr.header (st.page + 1) TOP (jsOr shot.scene ""),
             VInstr.cell (st.page + 1) (LEFT + 0 * CELL_WIDTH) (TOP + HEADER_HEIGHT) shot
               (shot.image != "" && fetch shot.image == FetchOutcome.ok)] := by
          simp only [vStep, vDrawSceneHeader, vStartNewPage, if_neg hnew,
            if_pos hov2, if_pos hsc2]
          rfl
        rw [hred] at hmem ⊢
        simp only [List.mem_cons, List.not_mem_nil, or_false] at hmem
        rcases hmem with h | h
        · cases h
          refine ⟨LEFT + 0 * CELL_WIDTH, TOP + HEADER_HEIGHT, shot,
            shot.image != "" && fetch shot.image == FetchOutcome.ok, by simp, ?_⟩
          simp only [TOP, HEADER_HEIGHT, A4]
          omega
        · cases h
      · have hred : (vStep fetch shot cur st).1 =
            [VInstr.cell (st.page + 1) (LEFT + 0 * CELL_WIDTH) TOP shot
               (shot.image != "" && fetch shot.image == FetchOutcome.ok)] := by
          simp only [vStep, vDrawSceneHeader, vStartNewPage, if_neg hnew,
            if_pos hov2, if_neg hsc2]
          rfl
        rw [hred] at hmem
        simp only [List.mem_cons, List.not_mem_nil, or_false] at hmem
        cases hmem
    · have hred : (vStep fetch shot cur st).1 =
          [VInstr.cell st.page (LEFT + st.column * CELL_WIDTH) st.currentY shot
             (shot.image != "" && fetch shot.image == FetchOutcome.ok)] := by
        simp only [vStep, vDrawSceneHeader, vStartNewPage, if_neg hnew, if_neg hov2]
        rfl
      rw [hred] at hmem
      simp only [List.mem_cons, List.not_mem_nil, or_false] at hmem
      cases hmem

theorem vGo_header_below (fetch : String → FetchOutcome) :
    ∀ (shots : List Shot) (cur : Option String) (st : VState) (p y : Nat) (sc : String),
      VInstr.header p y sc ∈ vGo fetch shots cur st →
      ∃ x y2 s2 b, VInstr.cell p x y2 s2 b ∈ vGo fetch shots cur st ∧ y < y2 := by
  intro shots
  induction shots with
  | nil => intro cur st p y sc h; simp [vGo] at h
  | cons shot rest ih =>
      intro cur st p y sc h
      rw [show vGo fetch (shot :: rest) cur st =
          (vStep fetch shot cur st).1 ++
            vGo fetch rest (vStep fetch shot cur st).2.1 (vStep fetch shot cur st).2.2
        from rfl] at h ⊢
      rcases List.mem_append.mp h with h | h
      · obtain ⟨x, y2, s2, b, hmem, hy⟩ := vStep_header_below fetch shot cur st p y sc h
        exact ⟨x, y2, s2, b, List.mem_append.mpr (Or.inl hmem), hy⟩
      · obtain ⟨x, y2, s2, b, hmem, hy⟩ := ih _ _ p y sc h
        exact ⟨x, y2, s2, b, List.mem_append.mpr (Or.inr hmem), hy⟩

end VEngine

theorem dropWhile_head_false {α : Type} (p : α → Bool) :
    ∀ (l : List α) (a : α), (l.dropWhile p).head? = some a → p a = false := by
  intro l
  induction l with
  | nil => intro a h; simp at h
  | cons x t ih =>
      intro a h
      rw [List.dropWhile_cons] at h
      by_cases hp : p x
      · rw [if_pos hp] at h
        exact ih a h
      · rw [if_neg hp] at h
        simp at h
        subst h
        simpa using hp

theorem dropWhile_eq_self_of_head {α : Type} (p : α → Bool) (l : List α)
    (h : ∀ a, l.head? = some a → p a = false) : l.dropWhile p = l := by
  cases l with
  | nil => rfl
  | cons x t =>
      rw [List.dropWhile_cons, if_neg]
      simp [h x rfl]

theorem jsTrim_idem (s : String) : jsTrim (jsTrim s) = jsTrim s := by
  have hdata : (jsTrim s).data =
      ((s.data.dropWhile isWs).reverse.dropWhile isWs).reverse := rfl
  show String.mk ((((jsTrim s).data.dropWhile isWs).reverse.dropWhile isWs).reverse) = _
  rw [hdata]
  have h1 : ((s.data.dropWhile isWs).reverse.dropWhile isWs).reverse.dropWhile isWs =
      ((s.data.dropWhile isWs).reverse.dropWhile isWs).reverse := by
    apply dropWhile_eq_self_of_head
    intro a ha
    rw [List.head?_reverse] at ha
    have hrne : (s.data.dropWhile isWs).reverse.dropWhile isWs ≠ [] := by
      intro hnil
      rw [hnil] at ha
      simp at ha
    have hsplit : (s.data.dropWhile isWs).reverse.takeWhile isWs ++
        (s.data.dropWhile isWs).reverse.dropWhile isWs =
        (s.data.dropWhile isWs).reverse :=
      List.takeWhile_append_dropWhile isWs _
    have hlast : (s.data.dropWhile isWs).reverse.getLast? = some a := by
      rw [← hsplit]
      rw [List.getLast?_append_of_ne_nil _ hrne]
      exact ha
    rw [List.getLast?_reverse] at hlast
    exact dropWhile_head_false isWs s.data a hlast
  rw [h1, List.reverse_reverse]
  have h2 : ((s.data.dropWhile isWs).reverse.dropWhile isWs).dropWhile isWs =
      (s.data.dropWhile isWs).reverse.dropWhile isWs := by
    apply dropWhile_eq_self_of_head
    intro a ha
    exact dropWhile_head_false isWs (s.data.dropWhile isWs).reverse a ha
  rw [h2]
  rfl

theorem handleGenerate_eq (imagesRaw scenesRaw sizesRaw descRaw namesRaw : ReqValue) :
    handleGenerate imagesRaw scenesRaw sizesRaw descRaw namesRaw =
      if (Nat.min (Nat.min (Nat.min (splitList imagesRaw).length
            (splitList scenesRaw).length) (splitList sizesRaw).length)
          (splitList descRaw).length) = 0 then
        GenerateOutcome.validationError (splitList imagesRaw).length
          (splitList scenesRaw).length (splitList sizesRaw).length
          (splitList descRaw).length
      else
        GenerateOutcome.document (groupByScene (buildShots
          (Nat.min (Nat.min (Nat.min (splitList imagesRaw).length
              (splitList scenesRaw).length) (splitList sizesRaw).length)
            (splitList descRaw).length)
          (splitList imagesRaw) (splitList scenesRaw) (splitList sizesRaw)
          (splitList descRaw) (splitList namesRaw))) := rfl

/-- C3: scene grouping is order-preserving and lossless: for every shot
sequence, concatenating the shot lists of the groups returned by either
groupByScene implementation, in group order, yields exactly the original
input sequence. -/
theorem groupByScene_concat_roundtrip (shots : List Shot) :
    ((groupByScene shots).map SceneGroup.shots).flatten = shots ∧
    ((groupBySceneGrid shots).map SceneGroup.shots).flatten = shots := by
  refine ⟨join_groupByScene shots, ?_⟩
  rw [groupBySceneGrid_eq]
  exact join_groupByScene shots

/-- C4: every SceneGroup produced by either groupByScene implementation
is non-empty, every shot of a group carries the group's scene label
(missing labels defaulting to the empty string, which is compared as a
valid label), and adjacent groups carry different labels — together with
the C3 round-trip this says a group boundary falls between two
consecutive shots exactly when their labels differ. -/
theorem groupByScene_groups_sound (shots : List Shot) :
    (∀ G ∈ groupByScene shots, G.shots ≠ []) ∧
    (∀ G ∈ groupByScene shots, ∀ t ∈ G.shots, jsOr t.scene "" = G.sceneName) ∧
    List.Chain' (fun a b => a.sceneName ≠ b.sceneName) (groupByScene shots) ∧
    (∀ G ∈ groupBySceneGrid shots, G.shots ≠ []) ∧
    (∀ G ∈ groupBySceneGrid shots, ∀ t ∈ G.shots, jsOr t.scene "" = G.sceneName) ∧
    List.Chain' (fun a b => a.sceneName ≠ b.sceneName) (groupBySceneGrid shots) :=
  ⟨groupByScene_ne_nil shots, groupByScene_labels shots, groupByScene_chain shots,
   groupBySceneGrid_ne_nil shots, groupBySceneGrid_labels shots,
   groupBySceneGrid_chain shots⟩

/-- C4 witness: on the concrete two-shot input, the scene-A group is
non-empty. -/
theorem groupByScene_groups_sound_w :
    SceneGroup.shots { sceneName := "A", shots := [shotA] } ≠ [] :=
  (groupByScene_groups_sound [shotA, shotB]).1
    { sceneName := "A", shots := [shotA] } (by decide)

/-- C5: for every request the handler computes usableCount as the
minimum of the lengths of the images, scenes, sizes and descriptions
lists (the names list is ignored); when that minimum is zero the request
yields the validation error carrying the four received lengths and no
document; otherwise a document is produced. -/
theorem usableCount_min_and_validation
    (imagesRaw scenesRaw sizesRaw descRaw namesRaw : ReqValue) :
    minLength [splitList imagesRaw, splitList scenesRaw, splitList sizesRaw,
        splitList descRaw] =
      some (Nat.min (Nat.min (Nat.min (splitList imagesRaw).length
          (splitList scenesRaw).length) (splitList sizesRaw).length)
        (splitList descRaw).length) ∧
    (Nat.min (Nat.min (Nat.min (splitList imagesRaw).length
          (splitList scenesRaw).length) (splitList sizesRaw).length)
        (splitList descRaw).length = 0 →
      handleGenerate imagesRaw scenesRaw sizesRaw descRaw namesRaw =
        GenerateOutcome.validationError (splitList imagesRaw).length
          (splitList scenesRaw).length (splitList sizesRaw).length
          (splitList descRaw).length) ∧
    (Nat.min (Nat.min (Nat.min (splitList imagesRaw).length
          (splitList scenesRaw).length) (splitList sizesRaw).length)
        (splitList descRaw).length ≠ 0 →
      ∃ groups, handleGenerate imagesRaw scenesRaw sizesRaw descRaw namesRaw =
        GenerateOutcome.document groups) := by
  refine ⟨rfl, ?_, ?_⟩
  · intro h0
    rw [handleGenerate_eq, if_pos h0]
  · intro hne
    rw [handleGenerate_eq, if_neg hne]
    exact ⟨_, rfl⟩

/-- C5 witness: a request with one image but no scenes has usableCount
zero and is rejected with the per-field lengths. -/
theorem usableCount_min_and_validation_w :
    handleGenerate (ReqValue.str "u1") ReqValue.absent (ReqValue.str "m")
        (ReqValue.str "x") ReqValue.absent =
      GenerateOutcome.validationError 1 0 1 1 :=
  (usableCount_min_and_validation (ReqValue.str "u1") ReqValue.absent
    (ReqValue.str "m") (ReqValue.str "x") ReqValue.absent).2.1 (by decide)

/-- C1 counterexample: a single scene-A group of nine shots in the
part_000 grid engine: the group is one SceneGroup, its cells land on
pages 2 and 3 (page 1 is the intro page), yet a header for it is drawn
on page 2 AND again on page 3 — not exactly once on its first page. -/
theorem gridEngine_repeats_header_on_continuation :
    (groupBySceneGrid nineShots).length = 1 ∧
    Grid.headerPages (Grid.gridRender (groupBySceneGrid nineShots)) 0 = [2, 3] ∧
    Grid.cellPages (Grid.gridRender (groupBySceneGrid nineShots)) 0 =
      [2, 2, 2, 2, 2, 2, 2, 2, 3] := by
  decide

/-- C1 (amended): in the flow layout engine of part_001, for every group
index the emitted trace contains exactly one header instruction for that
group, and the first cell of that group is drawn on the same page,
directly below it — so a group spanning several pages gets no header on
any continuation page. -/
theorem flowEngine_header_once_per_group (fetch : String → FetchOutcome)
    (shots : List Shot) (g : Nat) (hg : g < (groupByScene shots).length) :
    ∃ p r sc shot b,
      ((Flow.flowTrace fetch A4 shots).filter (Flow.isHeaderFor g)) =
        [Flow.FlowInstr.header g p r sc] ∧
      ((Flow.flowTrace fetch A4 shots).find? (Flow.isCellFor g)) =
        some (Flow.FlowInstr.cell g p (r + 1) 0 shot b) :=
  Flow.groups_find fetch (Flow.computeLayout A4) (by decide)
    (groupByScene shots) 0 { page := 1, rowIndex := 0 }
    (groupByScene_ne_nil shots) g (Nat.zero_le g) (by omega)

/-- C1 witness: on the one-shot input, group 0 has exactly one header
and its first cell on the same page. -/
theorem flowEngine_header_once_per_group_w :
    ∃ p r sc shot b,
      ((Flow.flowTrace fetchNone A4 [shotA]).filter (Flow.isHeaderFor 0)) =
        [Flow.FlowInstr.header 0 p r sc] ∧
      ((Flow.flowTrace fetchNone A4 [shotA]).find? (Flow.isCellFor 0)) =
        some (Flow.FlowInstr.cell 0 p (r + 1) 0 shot b) :=
  flowEngine_header_once_per_group fetchNone [shotA] 0 (by decide)

/-- C2: anti-orphan rule.  In the flow engine, every header drawn at
page p, row r is followed by a shot cell at the same page in the row
directly below; in the third-variant y-cursor engine, every header drawn
at page p, offset y is followed by a shot cell on the same page at a
strictly larger y offset. -/
theorem flowEngine_header_never_orphaned :
    (∀ (fetch : String → FetchOutcome) (shots : List Shot) (g p r : Nat) (sc : String),
      Flow.FlowInstr.header g p r sc ∈ Flow.flowTrace fetch A4 shots →
      ∃ shot b, Flow.FlowInstr.cell g p (r + 1) 0 shot b ∈ Flow.flowTrace fetch A4 shots) ∧
    (∀ (fetch : String → FetchOutcome) (shots : List Shot) (p y : Nat) (sc : String),
      VEngine.VInstr.header p y sc ∈ VEngine.vRender fetch shots →
      ∃ x y2 s2 b, VEngine.VInstr.cell p x y2 s2 b ∈ VEngine.vRender fetch shots ∧
        y < y2) := by
  constructor
  · intro fetch shots g p r sc hmem
    have hmem2 : Flow.FlowInstr.header g p r sc ∈
        (Flow.renderGroups fetch (Flow.computeLayout A4) 0 (groupByScene shots)
          { page := 1, rowIndex := 0 }).1 := hmem
    have htags := Flow.groups_tags fetch (Flow.computeLayout A4) (groupByScene shots) 0
      { page := 1, rowIndex := 0 } _ hmem2
    obtain ⟨p2, r2, sc2, shot, b, hfil, hfind⟩ :=
      Flow.groups_find fetch (Flow.computeLayout A4) (by decide) (groupByScene shots) 0
        { page := 1, rowIndex := 0 } (groupByScene_ne_nil shots) g (Nat.zero_le g)
        (by
          have := htags.2
          simp only [Flow.instrGroup] at this
          omega)
    have hmemf : Flow.FlowInstr.header g p r sc ∈
        ((Flow.renderGroups fetch (Flow.computeLayout A4) 0 (groupByScene shots)
          { page := 1, rowIndex := 0 }).1.filter (Flow.isHeaderFor g)) :=
      List.mem_filter.mpr ⟨hmem2, by simp [Flow.isHeaderFor]⟩
    rw [hfil] at hmemf
    simp only [List.mem_singleton] at hmemf
    cases hmemf
    exact ⟨shot, b, List.mem_of_find?_eq_some hfind⟩
  · intro fetch shots p y sc hmem
    exact VEngine.vGo_header_below fetch shots none
      { page := 1, currentY := VEngine.TOP, column := 0 } p y sc hmem

/-- C2 witness: on the one-shot input the header on page 1 row 0 has a
cell directly below it on the same page. -/
theorem flowEngine_header_never_orphaned_w :
    ∃ shot b, Flow.FlowInstr.cell 0 1 (0 + 1) 0 shot b ∈
      Flow.flowTrace fetchNone A4 [shotA] :=
  flowEngine_header_never_orphaned.1 fetchNone [shotA] 0 1 0 "A" (by decide)

/-- C6: the cell renderer's partial-failure policy.  The trace with
image draws erased is identical for any two fetch oracles — so a fetch
failure (network error or non-success response) changes nothing but the
skipped image draw — and the cells of the trace carry exactly the input
shots (with their size, name and description caption texts) in order,
for every oracle: one bad image URL never aborts the document. -/
theorem cellRenderer_partial_failure_policy (f f2 : String → FetchOutcome)
    (shots : List Shot) :
    Flow.eraseImages (Flow.flowTrace f A4 shots) =
      Flow.eraseImages (Flow.flowTrace f2 A4 shots) ∧
    Flow.cellShots (Flow.flowTrace f A4 shots) = shots := by
  constructor
  · exact (Flow.groups_fetch f f2 (Flow.computeLayout A4) (groupByScene shots) 0
      { page := 1, rowIndex := 0 }).2
  · show Flow.cellShots (Flow.renderGroups f (Flow.computeLayout A4) 0
      (groupByScene shots) { page := 1, rowIndex := 0 }).1 = shots
    rw [Flow.groups_cellShots]
    exact join_groupByScene shots

/-- C7: in the third src/server.js variant, a scene change while the
layout state is mid-row (column 1) draws the new header and the next
cell without advancing to a fresh row: on the two-shot input with scenes
A then B, both cells land on page 1 in column 0 at y offsets 70 and 100
points, and their rectangles overlap — contradicting the claim that no
two cells' rectangles ever overlap. -/
theorem vEngine_cells_overlap_bug :
    VEngine.vRender fetchNone [shotA, shotB] =
      [VEngine.VInstr.header 1 4000 "A",
       VEngine.VInstr.cell 1 4000 7000 shotA false,
       VEngine.VInstr.header 1 7000 "B",
       VEngine.VInstr.cell 1 4000 10000 shotB false] ∧
    rectsOverlap (VEngine.vCellRect 4000 7000) (VEngine.vCellRect 4000 10000) := by
  decide

/-- C8 counterexample: under a page geometry whose usable width is zero
the computed cell width is zero, yet the flow engine does not skip the
page's content: it still draws the header and the shot cell. -/
theorem degenerate_geometry_not_skipped :
    Flow.cellWidth (Flow.computeLayout degenGeom) = 0 ∧
    Flow.flowTrace fetchNone degenGeom [shotA] =
      [Flow.FlowInstr.header 0 1 0 "A", Flow.FlowInstr.cell 0 1 1 0 shotA false] := by
  decide

/-- C8 (amended): the flow engine has no degenerate-geometry check: even
with a zero cell width every shot is still drawn exactly once, in order,
and the (total) rendering never aborts. -/
theorem degenerate_geometry_draws_all_cells (fetch : String → FetchOutcome)
    (shots : List Shot) :
    Flow.cellWidth (Flow.computeLayout degenGeom) = 0 ∧
    Flow.cellShots (Flow.flowTrace fetch degenGeom shots) = shots := by
  refine ⟨by decide, ?_⟩
  show Flow.cellShots (Flow.renderGroups fetch (Flow.computeLayout degenGeom) 0
    (groupByScene shots) { page := 1, rowIndex := 0 }).1 = shots
  rw [Flow.groups_cellShots]
  exact join_groupByScene shots

/-- C9 counterexample: the normaliser does not trim and empty-filter
every field form: a native array is passed through unchanged, keeping an
untrimmed element and an empty string, and part_000's splitField keeps
the empty string a blank-only segment trims to. -/
theorem splitList_array_passthrough_cex :
    splitList (ReqValue.arr ["  a  ", ""]) = ["  a  ", ""] ∧
    "" ∈ splitList (ReqValue.arr ["  a  ", ""]) ∧
    jsTrim "  a  " ≠ "  a  " ∧
    splitField (ReqValue.str "a||| |||b") = ["a", "", "b"] ∧
    "" ∈ splitField (ReqValue.str "a||| |||b") := by
  decide

/-- C9 (amended): when a field arrives as a separator-joined string,
splitList returns trimmed, non-empty entries; a native list is passed
through unchanged by both helpers, and splitField trims string-form
entries but keeps empty ones. -/
theorem split_helpers_trim_filter (s : String) (l : List String) :
    (∀ x ∈ splitList (ReqValue.str s), x ≠ "" ∧ jsTrim x = x) ∧
    splitList (ReqValue.arr l) = l ∧
    (∀ x ∈ splitField (ReqValue.str s), jsTrim x = x) ∧
    splitField (ReqValue.arr l) = l := by
  refine ⟨?_, rfl, ?_, rfl⟩
  · intro x hx
    by_cases hs : s = ""
    · simp [splitList, hs] at hx
    · simp only [splitList, if_neg hs] at hx
      obtain ⟨hxmem, hxne⟩ := List.mem_filter.mp hx
      obtain ⟨y, _, hxy⟩ := List.mem_map.mp hxmem
      refine ⟨by simpa using hxne, ?_⟩
      rw [← hxy]
      exact jsTrim_idem y
  · intro x hx
    by_cases hs : s = ""
    · simp [splitField, hs] at hx
    · simp only [splitField, if_neg hs] at hx
      obtain ⟨y, _, hxy⟩ := List.mem_map.mp hx
      rw [← hxy]
      exact jsTrim_idem y

/-- C9 witness: on a concrete joined string the first entry is non-empty
and trimmed, and a concrete array is passed through. -/
theorem split_helpers_trim_filter_w :
    ("a" ≠ "" ∧ jsTrim "a" = "a") ∧ splitList (ReqValue.arr ["q"]) = ["q"] :=
  ⟨(split_helpers_trim_filter " a |||b " ["q"]).1 "a" (by decide),
   (split_helpers_trim_filter " a |||b " ["q"]).2.1⟩

/-- C10: drawShotRow makes strict progress: from any start index inside
the shot list it returns an index strictly larger, larger by at most
COLS = 2, and never beyond the list's length — so the per-group loop
terminates. -/
theorem drawShotRow_progress (fetch : String → FetchOutcome) (g : Nat)
    (sceneShots : List Shot) (startIndex : Nat) (st : Flow.FState)
    (h : startIndex < sceneShots.length) :
    startIndex < (Flow.drawShotRow fetch g sceneShots startIndex st).2.1 ∧
    (Flow.drawShotRow fetch g sceneShots startIndex st).2.1 ≤ startIndex + Flow.COLS ∧
    (Flow.drawShotRow fetch g sceneShots startIndex st).2.1 ≤ sceneShots.length :=
  ⟨Flow.shotCells_gt fetch g st.page st.rowIndex sceneShots Flow.COLS 0 startIndex h
      (by decide),
   Flow.shotCells_le fetch g st.page st.rowIndex sceneShots Flow.COLS 0 startIndex,
   Flow.shotCells_le_len fetch g st.page st.rowIndex sceneShots Flow.COLS 0 startIndex
     (Nat.le_of_lt h)⟩

/-- C10 witness: progress at the concrete one-shot input. -/
theorem drawShotRow_progress_w :
    0 < (Flow.drawShotRow fetchNone 7 [shotA] 0 { page := 1, rowIndex := 0 }).2.1 ∧
    (Flow.drawShotRow fetchNone 7 [shotA] 0 { page := 1, rowIndex := 0 }).2.1 ≤
      0 + Flow.COLS ∧
    (Flow.drawShotRow fetchNone 7 [shotA] 0 { page := 1, rowIndex := 0 }).2.1 ≤
      [shotA].length :=
  drawShotRow_progress fetchNone 7 [shotA] 0 { page := 1, rowIndex := 0 } (by decide)
